import Mathlib

/-!
Verification development for the hdz0318/pl0 PL/0 compiler and virtual machine
(Rust).  The definitions below are a shallow embedding, translated from the
repository sources:

  * `src/types.rs`   — `OpCode`, `Operator`, `Instruction`, `TokenType`, symbols;
  * `src/vm.rs`      — `VMState`, `VM`, `VM::step` (including `base`);
  * `src/parser.rs`  — the panic-on-error recursive-descent parser;
  * `src/ast.rs` / `src/optimizer.rs` — the AST and `optimize_ast` pass
    (expression simplification, condition folding, dead-branch elimination,
    straight-line CSE, loop-invariant code motion, empty filtering).

Modelling conventions:

  * Rust `i64` values are modelled as unbounded `Int` (two's-complement wraparound
    of `+`/`-`/`*` on `i64` is outside the scope of the properties treated here);
    Rust truncating division `/` on `i64` is `Int.tdiv`, except that
    `i64::MIN / -1` panics ("attempt to divide with overflow") in every Rust
    build profile, which the DIV arm of `stepOPR` models as `none`.
  * Rust `usize` is `Nat`.  `x as usize` on an `i64` is the wrapping cast
    `usizeOfInt` (reduction mod 2^64).  Arithmetic that panics in a debug build
    (`usize` subtraction underflow) is modelled by `Option`: `none` = panic.
  * `Vec` indexing out of bounds, and `panic!` itself, are modelled by `none`.
    Every partial function therefore returns `Option`; a `some` result is the
    value the Rust code produces, `none` means the Rust code panics.
  * `Vec::pop` removes the **last** element (`List.getLast?` / `List.dropLast`);
    `Vec::push` appends at the back.
-/

set_option maxRecDepth 100000

namespace PL0

/-- The `OpCode` from `src/types.rs`. -/
inductive OpCode where
  | LIT | OPR | LOD | STO | CAL | INT | JMP | JPC | RED | WRT
deriving DecidableEq, Repr

/-- The `Operator` from `src/types.rs` (the OPR subcodes, with their `i64` values). -/
inductive Operator where
  | RET | NEG | ADD | SUB | MUL | DIV | ODD
  | EQL | NEQ | LSS | GEQ | GTR | LEQ | WRT | WRL | RED
deriving DecidableEq, Repr

/-- The discriminant values of `Operator` (`#[repr(i64)]` in `src/types.rs`). -/
def Operator.toI64 : Operator → Int
  | .RET => 0 | .NEG => 1 | .ADD => 2 | .SUB => 3 | .MUL => 4 | .DIV => 5
  | .ODD => 6 | .EQL => 8 | .NEQ => 9 | .LSS => 10 | .GEQ => 11 | .GTR => 12
  | .LEQ => 13 | .WRT => 14 | .WRL => 15 | .RED => 16

/-- The `Operator::from_i64` from `src/types.rs`. -/
def Operator.fromI64 (val : Int) : Option Operator :=
  if val = 0 then some .RET
  else if val = 1 then some .NEG
  else if val = 2 then some .ADD
  else if val = 3 then some .SUB
  else if val = 4 then some .MUL
  else if val = 5 then some .DIV
  else if val = 6 then some .ODD
  else if val = 8 then some .EQL
  else if val = 9 then some .NEQ
  else if val = 10 then some .LSS
  else if val = 11 then some .GEQ
  else if val = 12 then some .GTR
  else if val = 13 then some .LEQ
  else if val = 14 then some .WRT
  else if val = 15 then some .WRL
  else if val = 16 then some .RED
  else none

/-- The `Instruction` from `src/types.rs`: opcode `f`, level difference `l`, argument `a`. -/
structure Instruction where
  f : OpCode
  l : Nat
  a : Int
deriving DecidableEq, Repr

/-- The `VMState` from `src/vm.rs`. -/
inductive VMState where
  | Running
  | Halted
  | WaitingForInput
  | Error (msg : String)
deriving DecidableEq, Repr

/-- The `VM` struct from `src/vm.rs`.  `stack` is the fixed-length data space
(`Vec<i64>` allocated once in `VM::new` and never resized). -/
structure VM where
  code : List Instruction
  stack : List Int
  p : Nat
  b : Nat
  t : Nat
  i : Instruction
  output : List String
  input_queue : List Int
  state : VMState
  instruction_count : Nat
deriving DecidableEq, Repr

/-- The `VM::new` from `src/vm.rs` (stack of 1000 zeros, dummy instruction register). -/
def VM.new (code : List Instruction) : VM :=
  { code := code
    stack := List.replicate 1000 0
    p := 0
    b := 0
    t := 0
    i := ⟨.LIT, 0, 0⟩
    output := []
    input_queue := []
    state := .Running
    instruction_count := 0 }

/-- The wrapping cast `x as usize` applied to an `i64` value. -/
def usizeOfInt (x : Int) : Nat := (x % (2 ^ 64)).toNat

/-- The value `i64::MIN`: dividing it by `-1` overflows, which Rust's `/`
checks and turns into a panic in every build profile. -/
def i64Min : Int := -(2 ^ 63)

/-- Bounds-checked `Vec` read; `none` models the Rust index-out-of-bounds panic. -/
def vecGet (l : List Int) (n : Nat) : Option Int := l.get? n

/-- Bounds-checked `Vec` write; `none` models the Rust index-out-of-bounds panic. -/
def vecSet (l : List Int) (n : Nat) (v : Int) : Option (List Int) :=
  if n < l.length then some (l.set n v) else none

/-- The `usize` decrement; `none` models the debug-build underflow panic of `x -= 1`. -/
def sub1 (n : Nat) : Option Nat :=
  match n with
  | 0 => none
  | m + 1 => some m

/-- The `VM::base` from `src/vm.rs`: follow `l` static-link hops from register `b`. -/
def VM.base (vm : VM) (l : Nat) : Option Nat :=
  baseFrom vm.stack vm.b l
where
  /-- The loop body of `VM::base`: `b = self.stack[b] as usize` repeated `l` times. -/
  baseFrom (stack : List Int) (b : Nat) : Nat → Option Nat
    | 0 => some b
    | l + 1 =>
      match vecGet stack b with
      | some v => baseFrom stack (usizeOfInt v) l
      | none => none

/-- The `OpCode::OPR` dispatch of `VM::step` (`src/vm.rs` lines 72–193).
`vm` already has `i` set, `p` incremented and the instruction counter bumped. -/
def stepOPR (ir : Instruction) (vm : VM) : Option VM :=
  match Operator.fromI64 ir.a with
  | some .RET =>
    let t' := vm.b
    match vecGet vm.stack (t' + 2), vecGet vm.stack (t' + 1) with
    | some ra, some dl =>
      let p' := usizeOfInt ra
      let b' := usizeOfInt dl
      some { vm with t := t', p := p', b := b',
                     state := if p' = 0 then .Halted else vm.state }
    | _, _ => none
  | some .NEG =>
    match sub1 vm.t with
    | some ti =>
      match vecGet vm.stack ti with
      | some v =>
        match vecSet vm.stack ti (-v) with
        | some st => some { vm with stack := st }
        | none => none
      | none => none
    | none => none
  | some .ADD => binArith vm (fun x y => some (x + y))
  | some .SUB => binArith vm (fun x y => some (x - y))
  | some .MUL => binArith vm (fun x y => some (x * y))
  | some .DIV =>
    match sub1 vm.t with
    | some t' =>
      match vecGet vm.stack t' with
      | some rhs =>
        if rhs = 0 then
          some { vm with t := t', state := .Error "Division by zero" }
        else
          match sub1 t' with
          | some ti =>
            match vecGet vm.stack ti with
            | some lhs =>
              if lhs = i64Min ∧ rhs = -1 then
                none  -- Rust panics: "attempt to divide with overflow"
              else
                match vecSet vm.stack ti (Int.tdiv lhs rhs) with
                | some st => some { vm with t := t', stack := st }
                | none => none
            | none => none
          | none => none
      | none => none
    | none => none
  | some .ODD =>
    match sub1 vm.t with
    | some ti =>
      match vecGet vm.stack ti with
      | some v =>
        match vecSet vm.stack ti (Int.tmod v 2) with
        | some st => some { vm with stack := st }
        | none => none
      | none => none
    | none => none
  | some .EQL => binArith vm (fun x y => some (if x = y then 1 else 0))
  | some .NEQ => binArith vm (fun x y => some (if x ≠ y then 1 else 0))
  | some .LSS => binArith vm (fun x y => some (if x < y then 1 else 0))
  | some .GEQ => binArith vm (fun x y => some (if x ≥ y then 1 else 0))
  | some .GTR => binArith vm (fun x y => some (if x > y then 1 else 0))
  | some .LEQ => binArith vm (fun x y => some (if x ≤ y then 1 else 0))
  | some .WRT =>
    match sub1 vm.t with
    | some t' =>
      match vecGet vm.stack t' with
      | some v => some { vm with t := t', output := vm.output ++ [toString v] }
      | none => none
    | none => none
  | some .WRL => some { vm with output := vm.output ++ ["\n"] }
  | some .RED =>
    match vm.input_queue.getLast? with
    | some val =>
      match vecSet vm.stack vm.t val with
      | some st =>
        some { vm with stack := st, t := vm.t + 1,
                       input_queue := vm.input_queue.dropLast }
      | none => none
    | none =>
      match sub1 vm.p with
      | some p' => some { vm with p := p', state := .WaitingForInput }
      | none => none
  | none => some { vm with state := .Error ("Unknown OPR " ++ toString ir.a) }
where
  /-- The shared pop-rhs-combine-with-new-top shape of ADD/SUB/MUL and the relops. -/
  binArith (vm : VM) (op : Int → Int → Option Int) : Option VM :=
    match sub1 vm.t with
    | some t' =>
      match sub1 t' with
      | some ti =>
        match vecGet vm.stack ti, vecGet vm.stack t' with
        | some lhs, some rhs =>
          match op lhs rhs with
          | some r =>
            match vecSet vm.stack ti r with
            | some st => some { vm with t := t', stack := st }
            | none => none
          | none => none
        | _, _ => none
      | none => none
    | none => none

/-- The `VM::step` from `src/vm.rs`.  `none` models a Rust panic; `some vm'` is the
state after the call returns. -/
def VM.step (vm : VM) : Option VM :=
  if vm.state ≠ .Running then some vm
  else if vm.p ≥ vm.code.length then
    some { vm with state := .Error "PC out of bounds" }
  else
    match vm.code.get? vm.p with
    | none => none  -- unreachable: p < code.length was just checked
    | some ir =>
      let vm := { vm with i := ir, p := vm.p + 1,
                          instruction_count := vm.instruction_count + 1 }
      match ir.f with
      | .LIT =>
        match vecSet vm.stack vm.t ir.a with
        | some st => some { vm with stack := st, t := vm.t + 1 }
        | none => none
      | .OPR => stepOPR ir vm
      | .LOD =>
        match vm.base ir.l with
        | some bb =>
          match vecGet vm.stack (usizeOfInt (bb + ir.a)) with
          | some v =>
            match vecSet vm.stack vm.t v with
            | some st => some { vm with stack := st, t := vm.t + 1 }
            | none => none
          | none => none
        | none => none
      | .STO =>
        match vm.base ir.l with
        | some bb =>
          match sub1 vm.t with
          | some t' =>
            match vecGet vm.stack t' with
            | some v =>
              match vecSet vm.stack (usizeOfInt (bb + ir.a)) v with
              | some st => some { vm with stack := st, t := t' }
              | none => none
            | none => none
          | none => none
        | none => none
      | .CAL =>
        match vm.base ir.l with
        | some bb =>
          match vecSet vm.stack vm.t (bb : Int) with
          | some st0 =>
            match vecSet st0 (vm.t + 1) (vm.b : Int) with
            | some st1 =>
              match vecSet st1 (vm.t + 2) (vm.p : Int) with
              | some st2 =>
                some { vm with stack := st2, b := vm.t, p := usizeOfInt ir.a }
              | none => none
            | none => none
          | none => none
        | none => none
      | .INT => some { vm with t := usizeOfInt ((vm.t : Int) + ir.a) }
      | .JMP => some { vm with p := usizeOfInt ir.a }
      | .JPC =>
        match sub1 vm.t with
        | some t' =>
          match vecGet vm.stack t' with
          | some v =>
            some { vm with t := t', p := if v = 0 then usizeOfInt ir.a else vm.p }
          | none => none
        | none => none
      | .RED =>
        match vm.input_queue.getLast? with
        | some val =>
          match vm.base ir.l with
          | some bb =>
            match vecSet vm.stack (usizeOfInt (bb + ir.a)) val with
            | some st =>
              some { vm with stack := st, input_queue := vm.input_queue.dropLast }
            | none => none
          | none => none
        | none =>
          match sub1 vm.p with
          | some p' => some { vm with p := p', state := .WaitingForInput }
          | none => none
      | .WRT =>
        match sub1 vm.t with
        | some t' =>
          match vecGet vm.stack t' with
          | some v => some { vm with t := t', output := vm.output ++ [toString v] }
          | none => none
        | none => none

/-- Sanity check mirroring the `test_vm_arithmetic` unit test of `src/vm.rs`:
`LIT 10; LIT 20; OPR ADD` leaves 30 on top of the stack after three steps. -/
example :
    ((VM.new [⟨.LIT, 0, 10⟩, ⟨.LIT, 0, 20⟩, ⟨.OPR, 0, 2⟩]).step.bind
        (fun v => v.step.bind VM.step)).map
      (fun v => v.stack.get? (v.t - 1)) = some (some 30) := by
  decide

/-- A `get? = some` hypothesis bounds the index. -/
theorem get?_lt {α : Type} {l : List α} {n : Nat} {x : α}
    (h : l.get? n = some x) : n < l.length := by
  by_contra hn
  rw [List.get?_eq_none.mpr (Nat.le_of_not_lt hn)] at h
  exact Option.noConfusion h

/-- C10: when the status is not `Running`, `step` returns the state unchanged. -/
theorem c10_step_nonrunning_frozen (vm : VM) (h : vm.state ≠ .Running) :
    vm.step = some vm := by
  simp [VM.step, h]

/-- Witness for `c10_step_nonrunning_frozen` at a concrete halted state. -/
theorem c10_step_nonrunning_frozen_witness :
    VM.step { VM.new [⟨.LIT, 0, 7⟩] with state := .Halted }
      = some { VM.new [⟨.LIT, 0, 7⟩] with state := .Halted } :=
  c10_step_nonrunning_frozen _ (by decide)

/-- A freshly created VM (stack capacity 1000) whose `T` register has reached the
stack capacity, about to execute `LIT 0 7`. -/
def vmOverflow : VM := { VM.new [⟨.LIT, 0, 7⟩] with t := 1000 }

/-- C2: executing a pushing instruction with `T` at the stack capacity makes
`step` panic (Rust index-out-of-bounds, modelled as `none`) instead of
transitioning the status to `Error`: `VM::step` contains no stack-overflow
check at all. -/
theorem c2_lit_overflow_panics : vmOverflow.step = none := by decide

/-- C7: an `OpCode::RED` with an empty input queue restores `P` to the index of
the `RED` instruction, sets the status to `WaitingForInput`, and leaves the
stack, `T`, `B`, the output and the input queue unchanged (only the instruction
register and the instruction counter advance). -/
theorem c7_red_empty_queue_waits (vm : VM) (l : Nat) (a : Int)
    (hs : vm.state = .Running)
    (hp : vm.code.get? vm.p = some ⟨.RED, l, a⟩)
    (hq : vm.input_queue = []) :
    vm.step = some { vm with
      i := ⟨.RED, l, a⟩,
      instruction_count := vm.instruction_count + 1,
      state := .WaitingForInput } := by
  have hlt : vm.p < vm.code.length := get?_lt hp
  rw [List.get?_eq_getElem?] at hp
  simp [VM.step, hs, Nat.not_le.mpr hlt, hp, hq, sub1]

/-- Witness for `c7_red_empty_queue_waits`. -/
theorem c7_red_empty_queue_waits_witness :
    VM.step { VM.new [⟨.RED, 0, 3⟩] with p := 0 }
      = some { VM.new [⟨.RED, 0, 3⟩] with
          i := ⟨.RED, 0, 3⟩, instruction_count := 1,
          state := .WaitingForInput } :=
  c7_red_empty_queue_waits _ 0 3 rfl rfl rfl

/-- C6 counterexample: at the non-zero divisor `-1` with left operand
`i64::MIN` the operands are NOT replaced by their quotient — Rust's `/`
checks for division overflow in every build profile and panics ("attempt to
divide with overflow"), so `step` faults (`none`) instead of producing a
result state. -/
theorem c6_div_overflow_counterexample :
    VM.step { VM.new [⟨.OPR, 0, 5⟩] with stack := [i64Min, -1, 0], t := 2 }
      = none
    ∧ (-1 : Int) ≠ 0 := by
  constructor
  · decide
  · decide

/-- C6 amended: `OPR DIV` first pops the right-hand operand; if it is zero the
status becomes `Error "Division by zero"` and the stack is left untouched (no
division is performed); for every non-zero divisor other than the overflowing
pair `i64::MIN / -1` the two operands are replaced by their truncated
quotient; at `i64::MIN / -1` the VM panics with a division overflow. -/
theorem c6_amended_opr_div (vm : VM) (l : Nat) (d e : Int)
    (hs : vm.state = .Running)
    (hp : vm.code.get? vm.p = some ⟨.OPR, l, 5⟩)
    (ht : 2 ≤ vm.t)
    (hd : vm.stack.get? (vm.t - 1) = some d)
    (he : vm.stack.get? (vm.t - 2) = some e) :
    (d = 0 → vm.step = some { vm with
        i := ⟨.OPR, l, 5⟩, instruction_count := vm.instruction_count + 1,
        p := vm.p + 1, t := vm.t - 1, state := .Error "Division by zero" })
    ∧ (d ≠ 0 → ¬(e = i64Min ∧ d = -1) → vm.step = some { vm with
        i := ⟨.OPR, l, 5⟩, instruction_count := vm.instruction_count + 1,
        p := vm.p + 1, t := vm.t - 1,
        stack := vm.stack.set (vm.t - 2) (Int.tdiv e d) })
    ∧ (e = i64Min → d = -1 → vm.step = none) := by
  have hlt : vm.p < vm.code.length := get?_lt hp
  obtain ⟨k, hk⟩ : ∃ k, vm.t = k + 2 := ⟨vm.t - 2, by omega⟩
  have hd' : vm.stack.get? (k + 1) = some d := by rw [hk] at hd; simpa using hd
  have he' : vm.stack.get? k = some e := by rw [hk] at he; simpa using he
  have hkl : k < vm.stack.length := get?_lt he'
  rw [List.get?_eq_getElem?] at hp hd' he'
  refine ⟨?_, ?_, ?_⟩
  · intro h0
    subst h0
    simp [VM.step, hs, Nat.not_le.mpr hlt, hp, hk, stepOPR, Operator.fromI64,
      sub1, vecGet, hd']
  · intro hne hov
    simp [VM.step, hs, Nat.not_le.mpr hlt, hp, hk, stepOPR, Operator.fromI64,
      sub1, vecGet, hd', he', hne, hov, vecSet, hkl]
  · intro hemin hdneg
    subst hemin
    subst hdneg
    have hne : (-1 : Int) ≠ 0 := by decide
    simp [VM.step, hs, Nat.not_le.mpr hlt, hp, hk, stepOPR, Operator.fromI64,
      sub1, vecGet, hd', he', hne]

/-- Witness for `c6_amended_opr_div` (14 / 2 = 7 on a running VM). -/
theorem c6_amended_opr_div_witness :
    VM.step { VM.new [⟨.OPR, 0, 5⟩] with stack := [14, 2, 0], t := 2 }
      = some { VM.new [⟨.OPR, 0, 5⟩] with
          i := ⟨.OPR, 0, 5⟩, instruction_count := 1, p := 1, t := 1,
          stack := [7, 2, 0] } := by
  have h := (c6_amended_opr_div
      { VM.new [⟨.OPR, 0, 5⟩] with stack := [14, 2, 0], t := 2 }
      0 2 14 rfl rfl (by decide) rfl rfl).2.1 (by decide) (by decide)
  simpa using h

/-- Concrete counterexample state for C1: two pending inputs `[1, 2]` (1 was
enqueued first, so it is at the front of the `Vec`), one `RED 0 3` instruction. -/
def vmC1 : VM :=
  { code := [⟨.RED, 0, 3⟩], stack := List.replicate 8 0, p := 0, b := 0, t := 0
    i := ⟨.LIT, 0, 0⟩, output := [], input_queue := [1, 2], state := .Running
    instruction_count := 0 }

/-- C1 counterexample: with pending inputs `[1, 2]`, the executed `RED` stores
`2` — the back (most recently pushed) element of `input_queue` — not the
earliest-enqueued front element `1`, which stays in the queue.  Reads therefore
do NOT consume the pending-input vector in FIFO order. -/
theorem c1_red_counterexample :
    vmC1.input_queue = [1, 2]
    ∧ vmC1.step = some { vmC1 with
        i := ⟨.RED, 0, 3⟩, p := 1, instruction_count := 1,
        stack := [0, 0, 0, 2, 0, 0, 0, 0], input_queue := [1] }
    ∧ (2 : Int) ≠ 1 := by
  refine ⟨rfl, by decide, by decide⟩

/-- C1 amended: both `RED` forms consume the **last** element of `input_queue`
(`Vec::pop` removes the back, i.e. the most recently pushed value), leaving the
earlier-enqueued prefix pending. -/
theorem c1_amended_red_consumes_back :
    (∀ (vm : VM) (l : Nat) (a : Int) (q : List Int) (x : Int) (bb : Nat)
       (st : List Int),
       vm.state = .Running →
       vm.code.get? vm.p = some ⟨.RED, l, a⟩ →
       vm.input_queue = q ++ [x] →
       vm.base l = some bb →
       vecSet vm.stack (usizeOfInt ((bb : Int) + a)) x = some st →
       vm.step = some { vm with
          i := ⟨.RED, l, a⟩, p := vm.p + 1,
          instruction_count := vm.instruction_count + 1,
          stack := st, input_queue := q })
    ∧ (∀ (vm : VM) (l : Nat) (q : List Int) (x : Int) (st : List Int),
       vm.state = .Running →
       vm.code.get? vm.p = some ⟨.OPR, l, 16⟩ →
       vm.input_queue = q ++ [x] →
       vecSet vm.stack vm.t x = some st →
       vm.step = some { vm with
          i := ⟨.OPR, l, 16⟩, p := vm.p + 1,
          instruction_count := vm.instruction_count + 1,
          stack := st, t := vm.t + 1, input_queue := q }) := by
  constructor
  · intro vm l a q x bb st hs hp hq hb hset
    have hlt : vm.p < vm.code.length := get?_lt hp
    rw [List.get?_eq_getElem?] at hp
    simp only [VM.base] at hb
    simp [VM.step, hs, Nat.not_le.mpr hlt, hp, hq, VM.base, hb, hset]
  · intro vm l q x st hs hp hq hset
    have hlt : vm.p < vm.code.length := get?_lt hp
    rw [List.get?_eq_getElem?] at hp
    simp [VM.step, hs, Nat.not_le.mpr hlt, hp, hq, stepOPR, Operator.fromI64,
      hset]

/-- Witness for `c1_amended_red_consumes_back` (both conjuncts, on `vmC1` and on
an `OPR RED` variant). -/
theorem c1_amended_red_consumes_back_witness :
    vmC1.step = some { vmC1 with
        i := ⟨.RED, 0, 3⟩, p := 1,
        instruction_count := 1,
        stack := (List.replicate 8 (0 : Int)).set 3 2, input_queue := [1] }
    ∧ VM.step { vmC1 with code := [⟨.OPR, 0, 16⟩] }
      = some { vmC1 with
          code := [⟨.OPR, 0, 16⟩], i := ⟨.OPR, 0, 16⟩, p := 1,
          instruction_count := 1,
          stack := (List.replicate 8 (0 : Int)).set 0 2, t := 1,
          input_queue := [1] } :=
  ⟨c1_amended_red_consumes_back.1 vmC1 0 3 [1] 2 0 _ rfl rfl rfl rfl (by decide),
   c1_amended_red_consumes_back.2 { vmC1 with code := [⟨.OPR, 0, 16⟩] } 0 [1] 2 _
     rfl rfl rfl (by decide)⟩

/-! ## Parser (`src/parser.rs`)

The recursive-descent parser emits instructions directly (no AST) and calls
`Parser::error`, which `panic!`s, on every syntax or name error.  A panic is
modelled as `none`.  The lexer keeps returning `Eof` once the input is
exhausted, so the current token of an empty token list is `Eof`.  The
recursive productions take a fuel parameter; `none` on fuel exhaustion never
occurs at the concrete inputs used in the theorems below. -/

/-- The `TokenType` from `src/types.rs`. -/
inductive Token where
  | Const | Var | Procedure | Program | Begin | End | If | Then | Else
  | While | Do | Call | Read | Write | Odd
  | Plus | Minus | Multiply | Divide | Equals | Hash
  | LessThan | LessEqual | GreaterThan | GreaterEqual | Assignment
  | Comma | Semicolon | Period | LParen | RParen
  | Identifier (name : String)
  | Number (val : Int)
  | Unknown | Eof
deriving DecidableEq, Repr

/-- The `SymbolType` from `src/types.rs`. -/
inductive SymbolType where
  | Constant (val : Int)
  | Variable (level : Nat) (addr : Int)
  | Procedure (level : Nat) (addr : Int)
deriving DecidableEq, Repr

/-- The `Symbol` from `src/types.rs`. -/
structure Symbol where
  name : String
  kind : SymbolType
deriving DecidableEq, Repr

/-- The mutable state of `Parser` (`src/parser.rs`): remaining token stream,
generated code, symbol table, current nesting level. -/
structure PState where
  toks : List Token
  code : List Instruction
  table : List Symbol
  level : Nat
deriving DecidableEq, Repr

/-- The parser's current token (`self.lexer.current_token`); an exhausted
lexer keeps producing `Eof`. -/
def cur (st : PState) : Token := st.toks.headD .Eof

/-- The `Parser::next` (advance the lexer by one token). -/
def adv (st : PState) : PState := { st with toks := st.toks.tail }

/-- The `Parser::emit` / `CodeGenerator::emit`. -/
def emitI (st : PState) (f : OpCode) (l : Nat) (a : Int) : PState :=
  { st with code := st.code ++ [⟨f, l, a⟩] }

/-- The `CodeGenerator::backpatch`: write `val` into the `a` field of the
instruction at `addr` when `addr` is in range, else do nothing. -/
def backpatch (code : List Instruction) (addr : Nat) (val : Int) :
    List Instruction :=
  match code.get? addr with
  | some ins => code.set addr { ins with a := val }
  | none => code

/-- The `Parser::expect`: consume the current token when it matches, else panic. -/
def expect (tk : Token) (st : PState) : Option PState :=
  match st.toks with
  | t :: rest => if t = tk then some { st with toks := rest } else none
  | [] => if tk = .Eof then some st else none

/-- The `Parser::position`: search the symbol table from the end (most local
binding first).  The Rust code also returns the index, which no caller uses. -/
def position (table : List Symbol) (name : String) : Option Symbol :=
  table.reverse.find? (fun s => s.name == name)

/-- The `loop` of `Parser::const_decl`: `<id> := <num>` items separated by
commas, terminated by an expected semicolon; only `TokenType::Assignment`
(`:=`) is accepted between the name and the number. -/
def constItems : List Token → List Symbol → Option (List Token × List Symbol)
  | .Identifier name :: .Assignment :: .Number v :: .Comma :: rest, tbl =>
      constItems rest (tbl ++ [⟨name, .Constant v⟩])
  | .Identifier name :: .Assignment :: .Number v :: rest, tbl =>
      (match rest with
       | .Semicolon :: rest2 => some (rest2, tbl ++ [⟨name, .Constant v⟩])
       | _ => none)
  | _, _ => none

/-- The `Parser::const_decl` (consumes the leading `const` token first). -/
def constDecl (st : PState) : Option PState :=
  match constItems (adv st).toks st.table with
  | some (toks', tbl') => some { st with toks := toks', table := tbl' }
  | none => none

/-- The `loop` of `Parser::var_decl`: identifiers separated by commas,
terminated by an expected semicolon; each gets address `3 + index`. -/
def varItems : List Token → List Symbol → Nat → Nat →
    Option (List Token × List Symbol × Nat)
  | .Identifier name :: .Comma :: rest, tbl, lvl, vars =>
      varItems rest (tbl ++ [⟨name, .Variable lvl (3 + vars)⟩]) lvl (vars + 1)
  | .Identifier name :: rest, tbl, lvl, vars =>
      (match rest with
       | .Semicolon :: rest2 =>
           some (rest2, tbl ++ [⟨name, .Variable lvl (3 + vars)⟩], vars + 1)
       | _ => none)
  | _, _, _, _ => none

/-- The `Parser::var_decl`: returns the updated state and the variable count. -/
def varDecl (st : PState) : Option (PState × Nat) :=
  match varItems (adv st).toks st.table st.level 0 with
  | some (toks', tbl', n) => some ({ st with toks := toks', table := tbl' }, n)
  | none => none

/-- The parameter-name loop inside `Parser::proc_decl` (after `(`, current
token known not to be `)`). -/
def paramItems : List Token → List String → Option (List Token × List String)
  | .Identifier p :: .Comma :: rest, acc => paramItems rest (acc ++ [p])
  | .Identifier p :: rest, acc => some (rest, acc ++ [p])
  | _, _ => none

/-- The optional `([id {, id}])` parameter list of `Parser::proc_decl`. -/
def procParams (st : PState) : Option (PState × List String) :=
  if cur st = .LParen then
    let st1 := adv st
    if cur st1 = .RParen then
      match expect .RParen st1 with
      | some st2 => some (st2, [])
      | none => none
    else
      match paramItems st1.toks [] with
      | some (toks', params) =>
        match expect .RParen { st1 with toks := toks' } with
        | some st2 => some (st2, params)
        | none => none
      | none => none
  else some (st, [])

/-- Parameter symbols entered by `proc_decl`: parameter `i` of `count` gets
address `-(count - i)` at the (already incremented) level. -/
def paramSyms (params : List String) (count : Nat) (lvl : Nat) : List Symbol :=
  params.enum.map (fun ip => ⟨ip.2, .Variable lvl (-(count - ip.1 : Int))⟩)

/-- The relational-operator emission table of `Parser::condition`; the
catch-all emits nothing, like the Rust `_ => {}`. -/
def relopEmit (st : PState) (op : Token) : PState :=
  match op with
  | .Equals => emitI st .OPR 0 Operator.EQL.toI64
  | .Hash => emitI st .OPR 0 Operator.NEQ.toI64
  | .LessThan => emitI st .OPR 0 Operator.LSS.toI64
  | .GreaterEqual => emitI st .OPR 0 Operator.GEQ.toI64
  | .GreaterThan => emitI st .OPR 0 Operator.GTR.toI64
  | .LessEqual => emitI st .OPR 0 Operator.LEQ.toI64
  | _ => st

mutual

/-- The `Parser::expression`: optional sign, term (negated for `-`), additive loop. -/
def expression : Nat → PState → Option PState
  | 0, _ => none
  | fuel + 1, st =>
    let signed := cur st = .Plus ∨ cur st = .Minus
    let op := if signed then cur st else .Unknown
    let st1 := if signed then adv st else st
    match term fuel st1 with
    | some st2 =>
      let st3 := if op = .Minus then emitI st2 .OPR 0 Operator.NEG.toI64 else st2
      exprLoop fuel st3
    | none => none

/-- The `{(+|-) term}` loop of `Parser::expression`. -/
def exprLoop : Nat → PState → Option PState
  | 0, _ => none
  | fuel + 1, st =>
    if cur st = .Plus ∨ cur st = .Minus then
      let op := cur st
      match term fuel (adv st) with
      | some st2 =>
        exprLoop fuel
          (if op = .Plus then emitI st2 .OPR 0 Operator.ADD.toI64
           else emitI st2 .OPR 0 Operator.SUB.toI64)
      | none => none
    else some st

/-- The `Parser::term`: factor followed by the multiplicative loop. -/
def term : Nat → PState → Option PState
  | 0, _ => none
  | fuel + 1, st =>
    match factor fuel st with
    | some st1 => termLoop fuel st1
    | none => none

/-- The `{(*|/) factor}` loop of `Parser::term`. -/
def termLoop : Nat → PState → Option PState
  | 0, _ => none
  | fuel + 1, st =>
    if cur st = .Multiply ∨ cur st = .Divide then
      let op := cur st
      match factor fuel (adv st) with
      | some st2 =>
        termLoop fuel
          (if op = .Multiply then emitI st2 .OPR 0 Operator.MUL.toI64
           else emitI st2 .OPR 0 Operator.DIV.toI64)
      | none => none
    else some st

/-- The `Parser::factor`: identifier (constant → `LIT`, variable → `LOD`),
number (`LIT`), or parenthesized expression. -/
def factor : Nat → PState → Option PState
  | 0, _ => none
  | fuel + 1, st =>
    match cur st with
    | .Identifier name =>
      let st1 := adv st
      (match position st1.table name with
       | some sym =>
         match sym.kind with
         | .Constant val => some (emitI st1 .LIT 0 val)
         | .Variable level addr => some (emitI st1 .LOD (st1.level - level) addr)
         | .Procedure _ _ => none
       | none => none)
    | .Number val => some (emitI (adv st) .LIT 0 val)
    | .LParen =>
      (match expression fuel (adv st) with
       | some st1 => expect .RParen st1
       | none => none)
    | _ => none

/-- The `Parser::condition`: `odd <exp>` or `<exp> relop <exp>`. -/
def condition : Nat → PState → Option PState
  | 0, _ => none
  | fuel + 1, st =>
    if cur st = .Odd then
      match expression fuel (adv st) with
      | some st1 => some (emitI st1 .OPR 0 Operator.ODD.toI64)
      | none => none
    else
      match expression fuel st with
      | some st1 =>
        let op := cur st1
        if op = .Equals ∨ op = .Hash ∨ op = .LessThan ∨ op = .LessEqual
            ∨ op = .GreaterThan ∨ op = .GreaterEqual then
          match expression fuel (adv st1) with
          | some st2 => some (relopEmit st2 op)
          | none => none
        else none
      | none => none

/-- The `Parser::statement`: assignment, call, compound, if, while, read, write.
Both `read` and `write` unconditionally `expect(TokenType::LParen)` after
their keyword. -/
def statement : Nat → PState → Option PState
  | 0, _ => none
  | fuel + 1, st =>
    match cur st with
    | .Identifier name =>
      (match position st.table name with
       | some sym =>
         match sym.kind with
         | .Variable level addr =>
           (match expect .Assignment (adv st) with
            | some st1 =>
              match expression fuel st1 with
              | some st2 => some (emitI st2 .STO (st2.level - level) addr)
              | none => none
            | none => none)
         | _ => none
       | none => none)
    | .Call =>
      let st1 := adv st
      (match cur st1 with
       | .Identifier name =>
         let st2 := adv st1
         (match position st2.table name with
          | some sym =>
            match sym.kind with
            | .Procedure level addr =>
              if cur st2 = .LParen then
                match callArgs fuel (adv st2) 0 with
                | some (st3, argc) =>
                  match expect .RParen st3 with
                  | some st4 =>
                    some (emitI (emitI st4 .CAL (st4.level - level) addr)
                      .INT 0 (-(argc : Int)))
                  | none => none
                | none => none
              else some (emitI st2 .CAL (st2.level - level) addr)
            | _ => none
          | none => none)
       | _ => none)
    | .Begin =>
      (match statement fuel (adv st) with
       | some st1 => stmtSeq fuel st1
       | none => none)
    | .If =>
      (match condition fuel (adv st) with
       | some st1 =>
         match expect .Then st1 with
         | some st2 =>
           let jpcIdx := st2.code.length
           let st3 := emitI st2 .JPC 0 0
           (match statement fuel st3 with
            | some st4 =>
              if cur st4 = .Else then
                let st5 := adv st4
                let jmpIdx := st5.code.length
                let st6 := emitI st5 .JMP 0 0
                let st7 :=
                  { st6 with code := backpatch st6.code jpcIdx st6.code.length }
                match statement fuel st7 with
                | some st8 =>
                  some { st8 with
                    code := backpatch st8.code jmpIdx st8.code.length }
                | none => none
              else
                some { st4 with
                  code := backpatch st4.code jpcIdx st4.code.length }
            | none => none)
         | none => none
       | none => none)
    | .While =>
      let st1 := adv st
      let startIdx := st1.code.length
      (match condition fuel st1 with
       | some st2 =>
         match expect .Do st2 with
         | some st3 =>
           let jpcIdx := st3.code.length
           let st4 := emitI st3 .JPC 0 0
           (match statement fuel st4 with
            | some st5 =>
              let st6 := emitI st5 .JMP 0 (startIdx : Int)
              some { st6 with
                code := backpatch st6.code jpcIdx st6.code.length }
            | none => none)
         | none => none
       | none => none)
    | .Read =>
      (match expect .LParen (adv st) with
       | some st1 => readItems fuel st1
       | none => none)
    | .Write =>
      (match expect .LParen (adv st) with
       | some st1 => writeItems fuel st1
       | none => none)
    | _ => none

/-- The `while Semicolon { next; statement }; expect End` loop of the
`Begin` branch of `Parser::statement`. -/
def stmtSeq : Nat → PState → Option PState
  | 0, _ => none
  | fuel + 1, st =>
    if cur st = .Semicolon then
      match statement fuel (adv st) with
      | some st1 => stmtSeq fuel st1
      | none => none
    else expect .End st

/-- The call-argument loop of `Parser::statement` (`expression {, expression}`
with a running count). -/
def callArgs : Nat → PState → Nat → Option (PState × Nat)
  | 0, _, _ => none
  | fuel + 1, st, argc =>
    match expression fuel st with
    | some st1 =>
      if cur st1 = .Comma then callArgs fuel (adv st1) (argc + 1)
      else some (st1, argc + 1)
    | none => none

/-- The identifier loop of the `Read` branch of `Parser::statement`:
each variable gets a `RED` instruction; terminated by an expected `)`. -/
def readItems : Nat → PState → Option PState
  | 0, _ => none
  | fuel + 1, st =>
    match cur st with
    | .Identifier name =>
      let st1 := adv st
      (match position st1.table name with
       | some sym =>
         match sym.kind with
         | .Variable level addr =>
           let st2 := emitI st1 .RED (st1.level - level) addr
           if cur st2 = .Comma then readItems fuel (adv st2)
           else expect .RParen st2
         | _ => none
       | none => none)
    | _ => none

/-- The expression loop of the `Write` branch of `Parser::statement`:
each expression is followed by `WRT`; terminated by an expected `)`. -/
def writeItems : Nat → PState → Option PState
  | 0, _ => none
  | fuel + 1, st =>
    match expression fuel st with
    | some st1 =>
      let st2 := emitI st1 .WRT 0 0
      if cur st2 = .Comma then writeItems fuel (adv st2)
      else expect .RParen st2
    | none => none

/-- The `Parser::block`: placeholder `JMP`, optional declarations, backpatch,
`INT`, body statement, `OPR RET`, symbol-table truncation. -/
def block : Nat → PState → Option PState
  | 0, _ => none
  | fuel + 1, st =>
    let tx0 := st.table.length
    let jmpAddr := st.code.length
    let st1 := emitI st .JMP 0 0
    match (if cur st1 = .Const then constDecl st1 else some st1) with
    | some st2 =>
      (match (if cur st2 = .Var then varDecl st2 else some (st2, 0)) with
       | some (st3, nvars) =>
         let dataSize := 3 + nvars
         (match (if cur st3 = .Procedure then procDecl fuel st3 else some st3) with
          | some st4 =>
            let st5 :=
              { st4 with code := backpatch st4.code jmpAddr st4.code.length }
            let st6 := emitI st5 .INT 0 (dataSize : Int)
            (match statement fuel st6 with
             | some st7 =>
               let st8 := emitI st7 .OPR 0 Operator.RET.toI64
               some { st8 with table := st8.table.take tx0 }
             | none => none)
          | none => none)
       | none => none)
    | none => none

/-- The `Parser::proc_decl`: the `while current == Procedure` loop of procedure
declarations (name, optional parameters, semicolon, block, semicolon). -/
def procDecl : Nat → PState → Option PState
  | 0, _ => none
  | fuel + 1, st =>
    if cur st = .Procedure then
      let st1 := adv st
      match cur st1 with
      | .Identifier name =>
        let st2 := adv st1
        let st3 := { st2 with
          table := st2.table
            ++ [(⟨name, .Procedure st2.level (st2.code.length : Int)⟩ : Symbol)] }
        let st4 := { st3 with level := st3.level + 1 }
        (match procParams st4 with
         | some (st5, params) =>
           match expect .Semicolon st5 with
           | some st6 =>
             let st7 := { st6 with
               table := st6.table ++ paramSyms params params.length st6.level }
             (match block fuel st7 with
              | some st8 =>
                match expect .Semicolon st8 with
                | some st9 => procDecl fuel { st9 with level := st9.level - 1 }
                | none => none
              | none => none)
           | none => none
         | none => none)
      | _ => none
    else some st

end

/-- The `Parser::program`: `program <id> ;` then the outermost block. -/
def programRoot (fuel : Nat) (st : PState) : Option PState :=
  match cur st with
  | .Program =>
    let st1 := adv st
    (match cur st1 with
     | .Identifier _ =>
       (match expect .Semicolon (adv st1) with
        | some st2 => block fuel st2
        | none => none)
     | _ => none)
  | _ => none

/-- The `Parser::parse` on a fresh parser (`Parser::new`): empty code, empty
symbol table, level 0. -/
def parse (fuel : Nat) (toks : List Token) : Option PState :=
  programRoot fuel ⟨toks, [], [], 0⟩

/-- Sanity check: the token stream of
`program p; var x; begin read(x); write(x+1) end.` parses and emits the
expected instruction vector. -/
example :
    parse 100 [.Program, .Identifier "p", .Semicolon, .Var, .Identifier "x",
      .Semicolon, .Begin, .Read, .LParen, .Identifier "x", .RParen, .Semicolon,
      .Write, .LParen, .Identifier "x", .Plus, .Number 1, .RParen, .End,
      .Period]
    = some ⟨[.Period],
        [⟨.JMP, 0, 1⟩, ⟨.INT, 0, 4⟩, ⟨.RED, 0, 3⟩, ⟨.LOD, 0, 3⟩,
         ⟨.LIT, 0, 1⟩, ⟨.OPR, 0, 2⟩, ⟨.WRT, 0, 0⟩, ⟨.OPR, 0, 0⟩],
        [], 0⟩ := by
  decide

/-- C3: on a token stream with a syntax error the parser aborts at once —
`Parser::error` is a `panic!` (modelled by `none`); no `ParseError` record is
produced, no synchronization-token recovery happens, and no
(best-effort AST, error list) pair is returned (the `Parser` struct has no
error list and builds no AST at all). -/
theorem c3_parse_panics_on_syntax_error :
    parse 100 [.Program, .Identifier "p", .Begin, .End, .Period] = none
    ∧ parse 100 [.Eof] = none := by
  constructor <;> rfl

/-- C4 counterexample: `const c = 70;` (with `=`, i.e. `TokenType::Equals`)
makes `const_decl` panic, while `const c := 70;` succeeds — the two forms do
not produce the same constant binding because only `:=` is accepted. -/
theorem c4_const_equals_counterexample :
    constDecl ⟨[.Const, .Identifier "c", .Equals, .Number 70, .Semicolon],
        [], [], 0⟩ = none
    ∧ constDecl ⟨[.Const, .Identifier "c", .Assignment, .Number 70, .Semicolon],
        [], [], 0⟩
      = some ⟨[], [], [⟨"c", .Constant 70⟩], 0⟩ := by
  constructor <;> rfl

/-- C4 amended: a const declaration accepts only `:=` between the name and the
number; it then records the `Constant` binding, while the `=` form panics. -/
theorem c4_amended_const_requires_assign (st : PState) (name : String)
    (v : Int) (rest : List Token) :
    constDecl { st with
        toks := .Const :: .Identifier name :: .Assignment
          :: .Number v :: .Semicolon :: rest }
      = some { st with
          toks := rest,
          table := st.table ++ [⟨name, .Constant v⟩] }
    ∧ constDecl { st with
        toks := .Const :: .Identifier name :: .Equals
          :: .Number v :: .Semicolon :: rest } = none := by
  constructor <;> rfl

/-- Symbol table with a single level-0 variable `x` at address 3. -/
def tblX : List Symbol := [⟨"x", .Variable 0 3⟩]

/-- C5 counterexample: `read x` and `write 1` without parentheses make the
parser panic (the `Read`/`Write` branches of `Parser::statement`
unconditionally `expect(TokenType::LParen)`), while the parenthesized
single-argument forms are accepted. -/
theorem c5_paren_free_counterexample :
    statement 100 ⟨[.Read, .Identifier "x", .Semicolon], [], tblX, 0⟩ = none
    ∧ statement 100 ⟨[.Write, .Number 1, .Semicolon], [], [], 0⟩ = none
    ∧ statement 100 ⟨[.Read, .LParen, .Identifier "x", .RParen], [], tblX, 0⟩
      = some ⟨[], [⟨.RED, 0, 3⟩], tblX, 0⟩
    ∧ statement 100 ⟨[.Write, .LParen, .Number 1, .RParen], [], [], 0⟩
      = some ⟨[], [⟨.LIT, 0, 1⟩, ⟨.WRT, 0, 0⟩], [], 0⟩ := by
  refine ⟨rfl, rfl, by decide, rfl⟩

/-- C5 amended: `read` and `write` require a parenthesized argument list —
whenever the token after the keyword is anything other than `(`, the parser
panics. -/
theorem c5_amended_read_write_require_parens :
    (∀ (fuel : Nat) (st : PState) (t : Token) (rest : List Token),
       st.toks = .Read :: t :: rest → t ≠ .LParen →
       statement fuel st = none)
    ∧ (∀ (fuel : Nat) (st : PState) (t : Token) (rest : List Token),
       st.toks = .Write :: t :: rest → t ≠ .LParen →
       statement fuel st = none) := by
  constructor
  · intro fuel st t rest hst ht
    match fuel with
    | 0 => rfl
    | fuel + 1 => simp [statement, cur, adv, expect, hst, ht]
  · intro fuel st t rest hst ht
    match fuel with
    | 0 => rfl
    | fuel + 1 => simp [statement, cur, adv, expect, hst, ht]

/-- Witness for `c5_amended_read_write_require_parens`. -/
theorem c5_amended_read_write_require_parens_witness :
    statement 100 ⟨[.Read, .Identifier "y", .Semicolon], [], tblX, 0⟩ = none
    ∧ statement 100 ⟨[.Write, .Number 2, .Semicolon], [], [], 0⟩ = none :=
  ⟨c5_amended_read_write_require_parens.1 100 _ (.Identifier "y") [.Semicolon]
      rfl (by decide),
   c5_amended_read_write_require_parens.2 100 _ (.Number 2) [.Semicolon]
      rfl (by decide)⟩

/-! ## AST and optimizer (`src/ast.rs`, `src/optimizer.rs`)

The AST is embedded as `optimize_ast` and its helpers pattern-match it in
`src/optimizer.rs` (those patterns bind exactly the fields below; the
source-line annotations play no role in the optimizer).  `HashMap<Expr, String>`
is represented as an association list with unique keys: insertion removes any
existing entry for the key and conses the new one, `retain` is `filter` —
observationally identical to the hash map for `get`/`insert`/`retain`/`clear`. -/

/-- The `Expr` from `src/ast.rs`. -/
inductive Expr where
  | Binary (left : Expr) (op : Operator) (right : Expr)
  | Unary (op : Operator) (expr : Expr)
  | Number (val : Int)
  | Identifier (name : String)
deriving DecidableEq, Repr

/-- The `Condition` from `src/ast.rs`. -/
inductive Condition where
  | Odd (expr : Expr)
  | Compare (left : Expr) (op : Operator) (right : Expr)
deriving DecidableEq, Repr

/-- The `Statement` from `src/ast.rs` (fields as matched by `src/optimizer.rs`). -/
inductive Statement where
  | Assignment (name : String) (expr : Expr)
  | Call (name : String) (args : List Expr)
  | BeginEnd (statements : List Statement)
  | If (condition : Condition) (thenStmt : Statement)
       (elseStmt : Option Statement)
  | While (condition : Condition) (body : Statement)
  | Read (names : List String)
  | Write (exprs : List Expr)
  | Empty

/-- The `ConstDecl` from `src/ast.rs`. -/
structure ConstDecl where
  name : String
  value : Int
deriving DecidableEq, Repr

mutual

/-- The `Block` from `src/ast.rs`. -/
inductive Block where
  | mk (consts : List ConstDecl) (vars : List String)
       (procedures : List ProcedureDecl) (statement : Statement)
       (scope_id : Option Nat)

/-- The `ProcedureDecl` from `src/ast.rs`. -/
inductive ProcedureDecl where
  | mk (name : String) (params : List String) (block : Block)

end

/-- The `Program` from `src/ast.rs`. -/
structure Program where
  block : Block

/-- Projection: the `statement` field of a `Block`. -/
def Block.stmt : Block → Statement
  | .mk _ _ _ st _ => st

/-- The `expr_uses_var` from `src/optimizer.rs`. -/
def exprUsesVar : Expr → String → Bool
  | .Binary l _ r, var => exprUsesVar l var || exprUsesVar r var
  | .Unary _ e, var => exprUsesVar e var
  | .Identifier name, var => name == var
  | _, _ => false

/-- The constant-folding table of `optimize_expr` (both operands literal):
ADD/SUB/MUL always fold, DIV folds only for a non-zero divisor, every other
operator is left alone. -/
def foldOp (op : Operator) (a b : Int) : Option Int :=
  match op with
  | .ADD => some (a + b)
  | .SUB => some (a - b)
  | .MUL => some (a * b)
  | .DIV => if b ≠ 0 then some (Int.tdiv a b) else none
  | _ => none

/-- The algebraic-identity cascade of `optimize_expr` (reached only when the
operands are not both literals): `x+0`, `0+x`, `x-0`, `x*1`, `1*x`, `x*0`,
`0*x`, `x/1`. -/
def algSimp (l : Expr) (op : Operator) (r : Expr) : Expr :=
  if op = .ADD then
    if r = .Number 0 then l
    else if l = .Number 0 then r
    else .Binary l op r
  else if op = .SUB then
    if r = .Number 0 then l else .Binary l op r
  else if op = .MUL then
    if r = .Number 1 then l
    else if l = .Number 1 then r
    else if r = .Number 0 then .Number 0
    else if l = .Number 0 then .Number 0
    else .Binary l op r
  else if op = .DIV then
    if r = .Number 1 then l else .Binary l op r
  else .Binary l op r

/-- The post-children combination step of `optimize_expr` on a `Binary` node. -/
def binStep (l : Expr) (op : Operator) (r : Expr) : Expr :=
  match l, r with
  | .Number a, .Number b =>
    (match foldOp op a b with
     | some v => .Number v
     | none => .Binary l op r)
  | _, _ => algSimp l op r

/-- The post-child combination step of `optimize_expr` on a `Unary` node:
only `NEG` of a literal folds. -/
def unStep (op : Operator) (e : Expr) : Expr :=
  match e with
  | .Number v => if op = .NEG then .Number (-v) else .Unary op e
  | _ => .Unary op e

/-- The `optimize_expr` from `src/optimizer.rs` (post-order). -/
def optExpr : Expr → Expr
  | .Binary l op r => binStep (optExpr l) op (optExpr r)
  | .Unary op e => unStep op (optExpr e)
  | e => e

/-- The `evaluate_condition` from `src/optimizer.rs`.  `%` on `i64` is `Int.tmod`. -/
def evalCond : Condition → Option Bool
  | .Odd e =>
    (match e with
     | .Number v => some (decide (Int.tmod v 2 ≠ 0))
     | _ => none)
  | .Compare l op r =>
    (match l, r with
     | .Number a, .Number b =>
       match op with
       | .EQL => some (decide (a = b))
       | .NEQ => some (decide (a ≠ b))
       | .LSS => some (decide (a < b))
       | .LEQ => some (decide (a ≤ b))
       | .GTR => some (decide (a > b))
       | .GEQ => some (decide (a ≥ b))
       | _ => none
     | _, _ => none)

/-- The `optimize_condition` from `src/optimizer.rs`. -/
def optCond : Condition → Condition
  | .Odd e => .Odd (optExpr e)
  | .Compare l op r => .Compare (optExpr l) op (optExpr r)

/-- The `available_exprs` map of `optimize_block_dag`. -/
abbrev AMap := List (Expr × String)

/-- The `HashMap::get` on the association list. -/
def alookup : AMap → Expr → Option String
  | [], _ => none
  | (k, v) :: m, e => if k = e then some v else alookup m e

/-- The `available_exprs.retain(|k, _| !expr_uses_var(k, name))`. -/
def invalidate (m : AMap) (name : String) : AMap :=
  m.filter (fun kv => !exprUsesVar kv.1 name)

/-- The `HashMap::insert` (overwrite any existing binding of the key). -/
def ainsert (m : AMap) (k : Expr) (v : String) : AMap :=
  (k, v) :: m.filter (fun kv => decide (kv.1 ≠ k))

/-- Rust `!matches!(expr, Expr::Number(_) | Expr::Identifier(_))`: the insertion
guard of `optimize_block_dag` (only "complex" expressions are recorded). -/
def complexExpr : Expr → Bool
  | .Number _ => false
  | .Identifier _ => false
  | _ => true

/-- One iteration of the statement loop of `optimize_block_dag`: CSE
replacement, invalidation and recording for assignments; per-name
invalidation for reads; full clearing for calls, `if`, `while` and nested
compound statements; everything else leaves the map untouched. -/
def dagStep (m : AMap) (s : Statement) : AMap × Statement :=
  match s with
  | .Assignment name expr =>
    (match alookup m expr with
     | some v =>
       (invalidate m name, .Assignment name (.Identifier v))
     | none =>
       let m1 := invalidate m name
       let m2 :=
         if complexExpr expr && !exprUsesVar expr name then
           ainsert m1 expr name
         else m1
       (m2, .Assignment name expr))
  | .Read names => (names.foldl invalidate m, .Read names)
  | .Call n args => ([], .Call n args)
  | .If c t e => ([], .If c t e)
  | .While c b => ([], .While c b)
  | .BeginEnd ss => ([], .BeginEnd ss)
  | s => (m, s)

/-- The `optimize_block_dag` from `src/optimizer.rs`: thread the map through the
statement list, transforming assignments in place. -/
def dagRun (m : AMap) : List Statement → List Statement
  | [] => []
  | s :: rest =>
    let ms := dagStep m s
    ms.2 :: dagRun ms.1 rest

mutual

/-- The `collect_modified_vars` from `src/optimizer.rs` (accumulator-passing;
only membership in the result is ever consulted). -/
def collectModified : Statement → List String → List String
  | .Assignment name _, acc => name :: acc
  | .Read names, acc => names ++ acc
  | .BeginEnd ss, acc => collectModifiedList ss acc
  | .If _ t e, acc =>
    (match e with
     | some s => collectModified s (collectModified t acc)
     | none => collectModified t acc)
  | .While _ b, acc => collectModified b acc
  | _, acc => acc

/-- The statement-list traversal of `collect_modified_vars`. -/
def collectModifiedList : List Statement → List String → List String
  | [], acc => acc
  | s :: ss, acc => collectModifiedList ss (collectModified s acc)

end

/-- The `expr_depends_on` from `src/optimizer.rs`. -/
def exprDependsOn : Expr → List String → Bool
  | .Binary l _ r, vars => exprDependsOn l vars || exprDependsOn r vars
  | .Unary _ e, vars => exprDependsOn e vars
  | .Identifier name, vars => vars.contains name
  | _, _ => false

/-- The hoisting test of `try_licm`: an assignment whose right-hand side
depends on no modified variable. -/
def hoistable (modified : List String) (s : Statement) : Bool :=
  match s with
  | .Assignment _ e => !exprDependsOn e modified
  | _ => false

/-- The `try_licm` from `src/optimizer.rs`: hoist loop-invariant assignments of a
`while` body (in order) into a compound statement placed before the loop. -/
def licm : Statement → Statement
  | .While c body =>
    let modified := collectModified body []
    (match body with
     | .BeginEnd ss =>
       let inv := ss.filter (hoistable modified)
       let kept := ss.filter (fun s => !hoistable modified s)
       if inv.isEmpty then .While c (.BeginEnd ss)
       else .BeginEnd (inv ++ [.While c (.BeginEnd kept)])
     | .Assignment name e =>
       if exprDependsOn e modified then .While c (.Assignment name e)
       else .BeginEnd [.Assignment name e, .While c .Empty]
     | b => .While c b)
  | s => s

/-- The `Empty`-filtering step of the `BeginEnd` branch of
`optimize_statement`. -/
def filterNE (ss : List Statement) : List Statement :=
  ss.filter (fun s => match s with | .Empty => false | _ => true)

mutual

/-- The `optimize_statement` from `src/optimizer.rs`. -/
def optStmt : Statement → Statement
  | .Assignment name e => .Assignment name (optExpr e)
  | .Call name args => .Call name (args.map optExpr)
  | .BeginEnd ss =>
    let ss1 := optStmtList ss
    let ss2 := dagRun [] ss1
    .BeginEnd (filterNE ss2)
  | .If c t e =>
    let c' := optCond c
    let t' := optStmt t
    let e' := optStmtOpt e
    (match evalCond c' with
     | some true => t'
     | some false =>
       (match e' with
        | some s => s
        | none => .Empty)
     | none => .If c' t' e')
  | .While c b =>
    let c' := optCond c
    let b' := optStmt b
    (match evalCond c' with
     | some false => .Empty
     | some true => licm (.While c' b')
     | none => licm (.While c' b'))
  | .Read names => .Read names
  | .Write exprs => .Write (exprs.map optExpr)
  | .Empty => .Empty

/-- The element-wise child optimization of the `BeginEnd` branch. -/
def optStmtList : List Statement → List Statement
  | [] => []
  | s :: ss => optStmt s :: optStmtList ss

/-- The optional-else optimization of the `If` branch. -/
def optStmtOpt : Option Statement → Option Statement
  | none => none
  | some s => some (optStmt s)

end

mutual

/-- The `optimize_block` from `src/optimizer.rs`: recurse into procedures, then
optimize the block's statement. -/
def optBlock : Block → Block
  | .mk cs vs procs st sid => .mk cs vs (optProcs procs) (optStmt st) sid

/-- The procedure traversal of `optimize_block`. -/
def optProcs : List ProcedureDecl → List ProcedureDecl
  | [] => []
  | p :: ps => optProc p :: optProcs ps

/-- One procedure of the traversal. -/
def optProc : ProcedureDecl → ProcedureDecl
  | .mk n params b => .mk n params (optBlock b)

end

/-- The `optimize_ast` from `src/optimizer.rs`. -/
def optimize_ast (p : Program) : Program :=
  ⟨optBlock p.block⟩

/-- The expression `b + c`, used by the CSE counterexample. -/
def exprBC : Expr := .Binary (.Identifier "b") .ADD (.Identifier "c")

/-- C9 counterexample: in `t := b+c; read(a); d := b+c` the binding
`b+c ↦ t`, recorded before the read, IS used for replacement after the read
(the third statement becomes `d := t`): a read does not fully invalidate the
available-expression mapping, it only drops bindings that mention a read
variable. -/
theorem c9_read_counterexample :
    dagRun [] [.Assignment "t" exprBC, .Read ["a"], .Assignment "d" exprBC]
      = [.Assignment "t" exprBC, .Read ["a"],
         .Assignment "d" (.Identifier "t")]
    ∧ Expr.Identifier "t" ≠ exprBC := by
  refine ⟨rfl, ?_⟩
  intro h
  simp [exprBC] at h

/-- Membership after the per-name invalidation loop of the `Read` branch of
`optimize_block_dag`. -/
theorem mem_foldl_invalidate (names : List String) (m : AMap)
    (kv : Expr × String) :
    kv ∈ names.foldl invalidate m ↔
      kv ∈ m ∧ ∀ n ∈ names, exprUsesVar kv.1 n = false := by
  induction names generalizing m with
  | nil => simp
  | cons n ns ih =>
    simp only [List.foldl_cons, ih, invalidate, List.mem_filter,
      List.mem_cons, Bool.not_eq_true']
    constructor
    · rintro ⟨⟨hm, hn⟩, hns⟩
      exact ⟨hm, fun x hx => by rcases hx with rfl | hx
                                · exact hn
                                · exact hns x hx⟩
    · rintro ⟨hm, hall⟩
      exact ⟨⟨hm, hall n (.inl rfl)⟩, fun x hx => hall x (.inr hx)⟩

/-- C9 amended: a `read` invalidates exactly the recorded bindings whose
expression uses one of the read names (bindings mentioning none of them
survive), while calls, `if`, `while` and nested compound statements clear the
mapping entirely; no statement is rewritten by these cases. -/
theorem c9_amended_read_partial_invalidation :
    (∀ (m : AMap) (names : List String) (kv : Expr × String),
       (kv ∈ (dagStep m (.Read names)).1 ↔
         kv ∈ m ∧ ∀ n ∈ names, exprUsesVar kv.1 n = false)
       ∧ (dagStep m (.Read names)).2 = .Read names)
    ∧ (∀ (m : AMap) (name : String) (args : List Expr),
        dagStep m (.Call name args) = ([], .Call name args))
    ∧ (∀ (m : AMap) (c : Condition) (t : Statement) (e : Option Statement),
        dagStep m (.If c t e) = ([], .If c t e))
    ∧ (∀ (m : AMap) (c : Condition) (b : Statement),
        dagStep m (.While c b) = ([], .While c b))
    ∧ (∀ (m : AMap) (ss : List Statement),
        dagStep m (.BeginEnd ss) = ([], .BeginEnd ss)) := by
  refine ⟨fun m names kv => ⟨?_, rfl⟩, fun _ _ _ => rfl, fun _ _ _ _ => rfl,
    fun _ _ _ => rfl, fun _ _ => rfl⟩
  exact mem_foldl_invalidate names m kv

/-- The loop condition `x < 10` of the idempotence counterexample. -/
def licmCond : Condition := .Compare (.Identifier "x") .LSS (.Number 10)

/-- The idempotence counterexample program:
`while x < 10 do begin x := 1; y := x end`. -/
def progC8 : Program :=
  ⟨.mk [] ["x", "y"] []
    (.While licmCond
      (.BeginEnd [.Assignment "x" (.Number 1),
                  .Assignment "y" (.Identifier "x")]))
    none⟩

/-- C8 counterexample: `optimize_ast` is not idempotent.  On `progC8` the
first pass hoists `x := 1` (loop-invariant); that removes `x` from the body's
modified-variable set, so the second pass additionally hoists `y := x`,
yielding a different AST. -/
theorem c8_idempotence_counterexample :
    optimize_ast progC8
      = ⟨.mk [] ["x", "y"] []
          (.BeginEnd [.Assignment "x" (.Number 1),
            .While licmCond (.BeginEnd [.Assignment "y" (.Identifier "x")])])
          none⟩
    ∧ optimize_ast (optimize_ast progC8)
      = ⟨.mk [] ["x", "y"] []
          (.BeginEnd [.Assignment "x" (.Number 1),
            .BeginEnd [.Assignment "y" (.Identifier "x"),
              .While licmCond (.BeginEnd [])]])
          none⟩
    ∧ optimize_ast (optimize_ast progC8) ≠ optimize_ast progC8 := by
  refine ⟨rfl, rfl, ?_⟩
  intro h
  have h2 : Statement.BeginEnd [.Assignment "x" (.Number 1),
        .BeginEnd [.Assignment "y" (.Identifier "x"),
          .While licmCond (.BeginEnd [])]]
      = .BeginEnd [.Assignment "x" (.Number 1),
          .While licmCond
            (.BeginEnd [.Assignment "y" (.Identifier "x")])] :=
    congrArg (fun p => p.block.stmt) h
  simp at h2

/-! ### Idempotence of the optimizer on while-free programs (C8, amended)

`try_licm` is the only source of non-idempotence: hoisting an invariant
assignment shrinks the loop body's modified-variable set, which can make
further assignments invariant on the next pass.  Every other transformation
reaches a fixpoint after one application; this is proved below for programs
containing no `while` statement. -/

/-- An expression on which `optimize_expr` makes no further progress:
children are stable and no binary/unary rewrite applies. -/
def IsOptE : Expr → Prop
  | .Binary l op r => IsOptE l ∧ IsOptE r ∧ binStep l op r = .Binary l op r
  | .Unary op e => IsOptE e ∧ unStep op e = .Unary op e
  | _ => True

theorem isOptE_fix : ∀ e : Expr, IsOptE e → optExpr e = e := by
  intro e h
  induction e with
  | Binary l op r ihl ihr =>
    obtain ⟨hl, hr, hb⟩ := h
    simp only [optExpr, ihl hl, ihr hr, hb]
  | Unary op e ih =>
    obtain ⟨he, hu⟩ := h
    simp only [optExpr, ih he, hu]
  | Number v => rfl
  | Identifier n => rfl

theorem isOptE_unStep (op : Operator) (e : Expr) (he : IsOptE e) :
    IsOptE (unStep op e) := by
  cases e with
  | Number v =>
    by_cases hop : op = Operator.NEG
    · simp [unStep, hop, IsOptE]
    · simp [unStep, hop, IsOptE]
  | Binary l o r => exact ⟨he, by simp [unStep]⟩
  | Unary o e => exact ⟨he, by simp [unStep]⟩
  | Identifier n => exact ⟨he, by simp [unStep]⟩

theorem isOptE_binStep (l r : Expr) (op : Operator)
    (hl : IsOptE l) (hr : IsOptE r) : IsOptE (binStep l op r) := by
  have halg : binStep l op r = algSimp l op r → IsOptE (algSimp l op r) := by
    intro hbs
    unfold algSimp
    split_ifs <;>
      first
        | exact hl
        | exact hr
        | exact trivial
        | exact ⟨hl, hr, by rw [hbs]; unfold algSimp; simp_all⟩
  cases l with
  | Number a =>
    cases r with
    | Number b =>
      cases op <;> by_cases hb : b = 0 <;> simp [binStep, foldOp, hb, IsOptE]
    | Binary _ _ _ => exact halg rfl
    | Unary _ _ => exact halg rfl
    | Identifier _ => exact halg rfl
  | Binary _ _ _ => exact halg rfl
  | Unary _ _ => exact halg rfl
  | Identifier _ => exact halg rfl

theorem isOptE_optExpr : ∀ e : Expr, IsOptE (optExpr e) := by
  intro e
  induction e with
  | Binary l op r ihl ihr =>
    simpa only [optExpr] using isOptE_binStep _ _ op ihl ihr
  | Unary op e ih =>
    simpa only [optExpr] using isOptE_unStep op _ ih
  | Number v => trivial
  | Identifier n => trivial

/-- The `optimize_expr` is idempotent. -/
theorem optExpr_idem (e : Expr) : optExpr (optExpr e) = optExpr e :=
  isOptE_fix _ (isOptE_optExpr e)

/-- The `optimize_condition` is idempotent. -/
theorem optCond_idem (c : Condition) : optCond (optCond c) = optCond c := by
  cases c <;> simp [optCond, optExpr_idem]

/-- Invariant of `available_exprs`: every key is a "complex" expression. -/
def KeysComplex (m : AMap) : Prop := ∀ kv ∈ m, complexExpr kv.1 = true

/-- Invariant of `available_exprs`: keys are pairwise distinct (the hash map
holds one binding per key). -/
def UniqKeys (m : AMap) : Prop := (m.map Prod.fst).Nodup

/-- Pairwise containment of association lists. -/
def MapSub (m2 m1 : AMap) : Prop := ∀ kv, kv ∈ m2 → kv ∈ m1

theorem alookup_mem {m : AMap} {e : Expr} {v : String}
    (h : alookup m e = some v) : (e, v) ∈ m := by
  induction m with
  | nil => simp [alookup] at h
  | cons kv m ih =>
    obtain ⟨k, w⟩ := kv
    by_cases hk : k = e
    · subst hk
      simp [alookup] at h
      subst h
      exact List.mem_cons_self _ _
    · simp [alookup, hk] at h
      exact List.mem_cons_of_mem _ (ih h)

theorem mem_alookup {m : AMap} {e : Expr} {v : String}
    (hu : UniqKeys m) (h : (e, v) ∈ m) : alookup m e = some v := by
  induction m with
  | nil => cases h
  | cons kv m ih =>
    obtain ⟨k, w⟩ := kv
    rcases List.mem_cons.mp h with heq | htl
    · obtain ⟨rfl, rfl⟩ := Prod.mk.injEq .. ▸ heq
      simp [alookup]
    · have hk : k ≠ e := by
        intro hke
        subst hke
        have hkey : k ∈ m.map Prod.fst :=
          List.mem_map.mpr ⟨(k, v), htl, rfl⟩
        exact (List.nodup_cons.mp hu).1 hkey
      simpa [alookup, hk] using ih (List.nodup_cons.mp hu).2 htl

theorem alookup_none_of_simple {m : AMap} {e : Expr}
    (hc : KeysComplex m) (he : complexExpr e = false) :
    alookup m e = none := by
  cases hl : alookup m e with
  | none => rfl
  | some v =>
    have := hc _ (alookup_mem hl)
    rw [he] at this
    exact Bool.noConfusion this

theorem keysComplex_filter {m : AMap} (p : Expr × String → Bool)
    (h : KeysComplex m) : KeysComplex (m.filter p) :=
  fun kv hkv => h kv (List.mem_filter.mp hkv).1

theorem uniqKeys_filter {m : AMap} (p : Expr × String → Bool)
    (h : UniqKeys m) : UniqKeys (m.filter p) :=
  h.sublist ((m.filter_sublist).map Prod.fst)

theorem mapSub_filter {m2 m1 : AMap} (p : Expr × String → Bool)
    (h : MapSub m2 m1) : MapSub (m2.filter p) (m1.filter p) := by
  intro kv hkv
  obtain ⟨h1, h2⟩ := List.mem_filter.mp hkv
  exact List.mem_filter.mpr ⟨h _ h1, h2⟩

theorem keysComplex_invalidate {m : AMap} (n : String)
    (h : KeysComplex m) : KeysComplex (invalidate m n) :=
  keysComplex_filter _ h

theorem uniqKeys_invalidate {m : AMap} (n : String)
    (h : UniqKeys m) : UniqKeys (invalidate m n) :=
  uniqKeys_filter _ h

theorem mapSub_invalidate {m2 m1 : AMap} (n : String)
    (h : MapSub m2 m1) : MapSub (invalidate m2 n) (invalidate m1 n) :=
  mapSub_filter _ h

theorem keysComplex_invList (names : List String) {m : AMap}
    (h : KeysComplex m) : KeysComplex (names.foldl invalidate m) := by
  induction names generalizing m with
  | nil => exact h
  | cons n ns ih => exact ih (keysComplex_invalidate n h)

theorem uniqKeys_invList (names : List String) {m : AMap}
    (h : UniqKeys m) : UniqKeys (names.foldl invalidate m) := by
  induction names generalizing m with
  | nil => exact h
  | cons n ns ih => exact ih (uniqKeys_invalidate n h)

theorem mapSub_invList (names : List String) {m2 m1 : AMap}
    (h : MapSub m2 m1) :
    MapSub (names.foldl invalidate m2) (names.foldl invalidate m1) := by
  induction names generalizing m2 m1 with
  | nil => exact h
  | cons n ns ih => exact ih (mapSub_invalidate n h)

theorem keysComplex_ainsert {m : AMap} {k : Expr} {v : String}
    (h : KeysComplex m) (hk : complexExpr k = true) :
    KeysComplex (ainsert m k v) := by
  intro kv hkv
  rcases List.mem_cons.mp hkv with rfl | htl
  · exact hk
  · exact keysComplex_filter _ h kv htl

theorem uniqKeys_ainsert {m : AMap} {k : Expr} {v : String}
    (h : UniqKeys m) : UniqKeys (ainsert m k v) := by
  unfold ainsert UniqKeys
  rw [List.map_cons, List.nodup_cons]
  refine ⟨?_, uniqKeys_filter _ h⟩
  intro hk
  obtain ⟨kv, hkv, hfst⟩ := List.mem_map.mp hk
  have hne : kv.1 ≠ k := of_decide_eq_true (List.mem_filter.mp hkv).2
  exact hne hfst

theorem mapSub_ainsert {m2 m1 : AMap} (k : Expr) (v : String)
    (h : MapSub m2 m1) : MapSub (ainsert m2 k v) (ainsert m1 k v) := by
  intro kv hkv
  rcases List.mem_cons.mp hkv with rfl | htl
  · exact List.mem_cons_self _ _
  · exact List.mem_cons_of_mem _ (mapSub_filter _ h kv htl)

/-- One-step stability: stepping the pass-1 output statement under any map
related to the pass-1 map by containment (with the hash-map invariants)
reproduces the statement, and all invariants carry to the successor maps. -/
theorem dagStep_stable (s : Statement) (m1 m2 : AMap)
    (hc1 : KeysComplex m1) (hu1 : UniqKeys m1)
    (hc2 : KeysComplex m2) (hu2 : UniqKeys m2) (hsub : MapSub m2 m1) :
    (dagStep m2 (dagStep m1 s).2).2 = (dagStep m1 s).2
    ∧ KeysComplex (dagStep m1 s).1 ∧ UniqKeys (dagStep m1 s).1
    ∧ KeysComplex (dagStep m2 (dagStep m1 s).2).1
    ∧ UniqKeys (dagStep m2 (dagStep m1 s).2).1
    ∧ MapSub (dagStep m2 (dagStep m1 s).2).1 (dagStep m1 s).1 := by
  cases s with
  | Assignment name e =>
    cases hl1 : alookup m1 e with
    | some v =>
      have hl2 : alookup m2 (Expr.Identifier v) = none :=
        alookup_none_of_simple hc2 rfl
      simp only [dagStep, hl1, hl2, complexExpr, Bool.false_and,
        Bool.false_eq_true, if_false]
      exact ⟨trivial, keysComplex_invalidate _ hc1, uniqKeys_invalidate _ hu1,
        keysComplex_invalidate _ hc2, uniqKeys_invalidate _ hu2,
        mapSub_invalidate _ hsub⟩
    | none =>
      have hl2 : alookup m2 e = none := by
        cases hl2' : alookup m2 e with
        | none => rfl
        | some w =>
          have : (e, w) ∈ m1 := hsub _ (alookup_mem hl2')
          rw [mem_alookup hu1 this] at hl1
          exact Option.noConfusion hl1
      by_cases hg : (complexExpr e && !exprUsesVar e name) = true
      · simp only [dagStep, hl1, hl2, hg, if_true]
        refine ⟨trivial, keysComplex_ainsert (keysComplex_invalidate _ hc1)
            (Bool.and_eq_true .. ▸ hg).1,
          uniqKeys_ainsert (uniqKeys_invalidate _ hu1),
          keysComplex_ainsert (keysComplex_invalidate _ hc2)
            (Bool.and_eq_true .. ▸ hg).1,
          uniqKeys_ainsert (uniqKeys_invalidate _ hu2),
          mapSub_ainsert _ _ (mapSub_invalidate _ hsub)⟩
      · simp only [dagStep, hl1, hl2, hg, if_false]
        exact ⟨trivial, keysComplex_invalidate _ hc1, uniqKeys_invalidate _ hu1,
          keysComplex_invalidate _ hc2, uniqKeys_invalidate _ hu2,
          mapSub_invalidate _ hsub⟩
  | Read names =>
    simp only [dagStep]
    exact ⟨trivial, keysComplex_invList _ hc1, uniqKeys_invList _ hu1,
      keysComplex_invList _ hc2, uniqKeys_invList _ hu2,
      mapSub_invList _ hsub⟩
  | Call n args =>
    exact ⟨rfl, by simp [dagStep, KeysComplex], by simp [dagStep, UniqKeys],
      by simp [dagStep, KeysComplex], by simp [dagStep, UniqKeys],
      by simp [dagStep, MapSub]⟩
  | If c t e =>
    exact ⟨rfl, by simp [dagStep, KeysComplex], by simp [dagStep, UniqKeys],
      by simp [dagStep, KeysComplex], by simp [dagStep, UniqKeys],
      by simp [dagStep, MapSub]⟩
  | While c b =>
    exact ⟨rfl, by simp [dagStep, KeysComplex], by simp [dagStep, UniqKeys],
      by simp [dagStep, KeysComplex], by simp [dagStep, UniqKeys],
      by simp [dagStep, MapSub]⟩
  | BeginEnd ss =>
    exact ⟨rfl, by simp [dagStep, KeysComplex], by simp [dagStep, UniqKeys],
      by simp [dagStep, KeysComplex], by simp [dagStep, UniqKeys],
      by simp [dagStep, MapSub]⟩
  | Write exprs =>
    exact ⟨rfl, hc1, hu1, hc2, hu2, hsub⟩
  | Empty =>
    exact ⟨rfl, hc1, hu1, hc2, hu2, hsub⟩

/-- Running `optimize_block_dag` a second time (under a contained map) leaves
its own output unchanged: no new replacement can fire, because the second
pass's map is always contained in the first pass's map at the same position. -/
theorem dagRun_stable (ss : List Statement) (m1 m2 : AMap)
    (hc1 : KeysComplex m1) (hu1 : UniqKeys m1)
    (hc2 : KeysComplex m2) (hu2 : UniqKeys m2) (hsub : MapSub m2 m1) :
    dagRun m2 (dagRun m1 ss) = dagRun m1 ss := by
  induction ss generalizing m1 m2 with
  | nil => rfl
  | cons s rest ih =>
    obtain ⟨hout, hc1', hu1', hc2', hu2', hsub'⟩ :=
      dagStep_stable s m1 m2 hc1 hu1 hc2 hu2 hsub
    show (dagStep m2 (dagStep m1 s).2).2
        :: dagRun (dagStep m2 (dagStep m1 s).2).1 (dagRun (dagStep m1 s).1 rest)
      = (dagStep m1 s).2 :: dagRun (dagStep m1 s).1 rest
    rw [hout]
    exact congrArg _ (ih _ _ hc1' hu1' hc2' hu2' hsub')

theorem keysComplex_nil : KeysComplex [] := by
  intro kv h
  cases h

theorem uniqKeys_nil : UniqKeys [] := List.nodup_nil

theorem mapSub_nil : MapSub [] [] := fun _ h => h

theorem filterNE_cons_empty (l : List Statement) :
    filterNE (.Empty :: l) = filterNE l := rfl

theorem filterNE_cons_ne {s : Statement} (h : s ≠ .Empty)
    (l : List Statement) : filterNE (s :: l) = s :: filterNE l := by
  cases s <;> first | exact absurd rfl h | rfl

theorem filterNE_idem (l : List Statement) :
    filterNE (filterNE l) = filterNE l := by
  induction l with
  | nil => rfl
  | cons s l ih =>
    by_cases hs : s = Statement.Empty
    · subst hs
      rw [filterNE_cons_empty]
      exact ih
    · rw [filterNE_cons_ne hs, filterNE_cons_ne hs, ih]

theorem mem_filterNE {t : Statement} {l : List Statement}
    (h : t ∈ filterNE l) : t ∈ l := (List.mem_filter.mp h).1

theorem dagStep_ne_empty {s : Statement} (m : AMap) (h : s ≠ .Empty) :
    (dagStep m s).2 ≠ .Empty := by
  cases s with
  | Assignment n e => cases hl : alookup m e <;> simp [dagStep, hl]
  | Empty => exact absurd rfl h
  | Call n args => simp [dagStep]
  | BeginEnd ss => simp [dagStep]
  | If c t e => simp [dagStep]
  | While c b => simp [dagStep]
  | Read names => simp [dagStep]
  | Write exprs => simp [dagStep]

theorem dagRun_filterNE (ss : List Statement) (m : AMap) :
    dagRun m (filterNE ss) = filterNE (dagRun m ss) := by
  induction ss generalizing m with
  | nil => rfl
  | cons s rest ih =>
    by_cases hs : s = Statement.Empty
    · subst hs
      rw [filterNE_cons_empty]
      show dagRun m (filterNE rest)
        = filterNE ((dagStep m .Empty).2 :: dagRun (dagStep m .Empty).1 rest)
      rw [show dagStep m Statement.Empty = (m, Statement.Empty) from rfl]
      rw [filterNE_cons_empty]
      exact ih m
    · rw [filterNE_cons_ne hs]
      show (dagStep m s).2 :: dagRun (dagStep m s).1 (filterNE rest)
        = filterNE ((dagStep m s).2 :: dagRun (dagStep m s).1 rest)
      rw [filterNE_cons_ne (dagStep_ne_empty m hs), ih]

theorem dagStep_fix {s : Statement} (m : AMap) (h : optStmt s = s) :
    optStmt (dagStep m s).2 = (dagStep m s).2 := by
  cases s with
  | Assignment n e =>
    cases hl : alookup m e with
    | some v => simp [dagStep, hl, optStmt, optExpr]
    | none => simpa [dagStep, hl] using h
  | Call n args => simpa [dagStep] using h
  | BeginEnd ss => simpa [dagStep] using h
  | If c t e => simpa [dagStep] using h
  | While c b => simpa [dagStep] using h
  | Read names => simpa [dagStep] using h
  | Write exprs => simpa [dagStep] using h
  | Empty => simpa [dagStep] using h

theorem optStmtList_fix_of {ss : List Statement}
    (h : ∀ s ∈ ss, optStmt s = s) : optStmtList ss = ss := by
  induction ss with
  | nil => rfl
  | cons s rest ih =>
    show optStmt s :: optStmtList rest = s :: rest
    rw [h s (List.mem_cons_self s rest),
      ih (fun t ht => h t (List.mem_cons_of_mem _ ht))]

theorem dagRun_mem_fix {ss : List Statement} (m : AMap)
    (h : ∀ s ∈ ss, optStmt s = s) :
    ∀ t ∈ dagRun m ss, optStmt t = t := by
  induction ss generalizing m with
  | nil =>
    intro t ht
    cases ht
  | cons s rest ih =>
    intro t ht
    rcases List.mem_cons.mp ht with rfl | htl
    · exact dagStep_fix m (h s (List.mem_cons_self s rest))
    · exact ih _ (fun u hu => h u (List.mem_cons_of_mem _ hu)) t htl

mutual

/-- The statement contains no `while` loop. -/
def noWhileS : Statement → Bool
  | .While _ _ => false
  | .BeginEnd ss => noWhileL ss
  | .If _ t e => noWhileS t && noWhileO e
  | _ => true

/-- No `while` anywhere in the list. -/
def noWhileL : List Statement → Bool
  | [] => true
  | s :: ss => noWhileS s && noWhileL ss

/-- No `while` in the optional else-branch. -/
def noWhileO : Option Statement → Bool
  | none => true
  | some s => noWhileS s

end

mutual

/-- The `optimize_statement` is idempotent on while-free statements. -/
theorem optStmt_fix (s : Statement) (h : noWhileS s = true) :
    optStmt (optStmt s) = optStmt s := by
  cases s with
  | Assignment name e => simp [optStmt, optExpr_idem]
  | Call name args =>
    show Statement.Call name ((args.map optExpr).map optExpr)
      = .Call name (args.map optExpr)
    rw [List.map_map, show optExpr ∘ optExpr = optExpr from funext optExpr_idem]
  | BeginEnd ss =>
    have hss : noWhileL ss = true := h
    have hfix1 : ∀ t ∈ optStmtList ss, optStmt t = t :=
      optStmtList_mem_fix ss hss
    have hfixD : ∀ t ∈ dagRun [] (optStmtList ss), optStmt t = t :=
      dagRun_mem_fix [] hfix1
    have hfixL : ∀ t ∈ filterNE (dagRun [] (optStmtList ss)), optStmt t = t :=
      fun t ht => hfixD t (mem_filterNE ht)
    show optStmt (.BeginEnd (filterNE (dagRun [] (optStmtList ss))))
      = .BeginEnd (filterNE (dagRun [] (optStmtList ss)))
    show Statement.BeginEnd (filterNE (dagRun []
        (optStmtList (filterNE (dagRun [] (optStmtList ss))))))
      = .BeginEnd (filterNE (dagRun [] (optStmtList ss)))
    rw [optStmtList_fix_of hfixL, dagRun_filterNE,
      dagRun_stable _ [] [] keysComplex_nil uniqKeys_nil keysComplex_nil
        uniqKeys_nil mapSub_nil,
      filterNE_idem]
  | If c t e =>
    obtain ⟨ht, he⟩ : noWhileS t = true ∧ noWhileO e = true := by
      simpa [noWhileS] using h
    rcases hev : evalCond (optCond c) with _ | b
    · have hev' : evalCond (optCond (optCond c)) = none := by
        rw [optCond_idem]
        exact hev
      simp only [optStmt, hev, hev']
      rw [optCond_idem, optStmt_fix t ht, optStmtOpt_fix e he]
    · cases b with
      | true =>
        simp only [optStmt, hev]
        exact optStmt_fix t ht
      | false =>
        simp only [optStmt, hev]
        cases e with
        | none => rfl
        | some s => exact optStmt_fix s he
  | While c b => simp [noWhileS] at h
  | Read names => rfl
  | Write exprs =>
    show Statement.Write ((exprs.map optExpr).map optExpr)
      = .Write (exprs.map optExpr)
    rw [List.map_map, show optExpr ∘ optExpr = optExpr from funext optExpr_idem]
  | Empty => rfl

/-- Every element of the optimized list is a fixpoint. -/
theorem optStmtList_mem_fix (ss : List Statement) (h : noWhileL ss = true) :
    ∀ t ∈ optStmtList ss, optStmt t = t := by
  cases ss with
  | nil =>
    intro t ht
    cases ht
  | cons s rest =>
    intro t ht
    obtain ⟨hs, hrest⟩ : noWhileS s = true ∧ noWhileL rest = true := by
      simpa [noWhileL] using h
    rcases List.mem_cons.mp ht with rfl | htl
    · exact optStmt_fix s hs
    · exact optStmtList_mem_fix rest hrest t htl

/-- Idempotence on the optional else-branch. -/
theorem optStmtOpt_fix (e : Option Statement) (h : noWhileO e = true) :
    optStmtOpt (optStmtOpt e) = optStmtOpt e := by
  cases e with
  | none => rfl
  | some s =>
    show some (optStmt (optStmt s)) = some (optStmt s)
    rw [optStmt_fix s h]

end

mutual

/-- The block contains no `while` loop (including inside its procedures). -/
def noWhileBl : Block → Bool
  | .mk _ _ procs st _ => noWhileProcs procs && noWhileS st

/-- No `while` in any of the procedures. -/
def noWhileProcs : List ProcedureDecl → Bool
  | [] => true
  | p :: ps => noWhileProc p && noWhileProcs ps

/-- No `while` in the procedure's block. -/
def noWhileProc : ProcedureDecl → Bool
  | .mk _ _ b => noWhileBl b

end

mutual

theorem optBlock_fix (b : Block) (h : noWhileBl b = true) :
    optBlock (optBlock b) = optBlock b := by
  cases b with
  | mk cs vs procs st sid =>
    obtain ⟨hp, hs⟩ : noWhileProcs procs = true ∧ noWhileS st = true := by
      simpa [noWhileBl] using h
    show Block.mk cs vs (optProcs (optProcs procs)) (optStmt (optStmt st)) sid
      = .mk cs vs (optProcs procs) (optStmt st) sid
    rw [optProcs_fix procs hp, optStmt_fix st hs]

theorem optProcs_fix (ps : List ProcedureDecl) (h : noWhileProcs ps = true) :
    optProcs (optProcs ps) = optProcs ps := by
  cases ps with
  | nil => rfl
  | cons p rest =>
    obtain ⟨hp, hrest⟩ : noWhileProc p = true ∧ noWhileProcs rest = true := by
      simpa [noWhileProcs] using h
    show optProc (optProc p) :: optProcs (optProcs rest)
      = optProc p :: optProcs rest
    rw [optProc_fix p hp, optProcs_fix rest hrest]

theorem optProc_fix (p : ProcedureDecl) (h : noWhileProc p = true) :
    optProc (optProc p) = optProc p := by
  cases p with
  | mk n params b =>
    show ProcedureDecl.mk n params (optBlock (optBlock b))
      = .mk n params (optBlock b)
    rw [optBlock_fix b h]

end

/-- C8 amended: `optimize_ast` is idempotent on programs containing no
`while` statement (loop-invariant code motion is the only source of
non-idempotence). -/
theorem c8_amended_idempotent_on_while_free (p : Program)
    (h : noWhileBl p.block = true) :
    optimize_ast (optimize_ast p) = optimize_ast p := by
  show Program.mk (optBlock (optBlock p.block)) = Program.mk (optBlock p.block)
  rw [optBlock_fix p.block h]

/-- A while-free program exercising constant folding, CSE, dead-branch
elimination and empty filtering. -/
def progC8W : Program :=
  ⟨.mk [] ["x", "y", "z"]
    [.mk "q" [] (.mk [] [] []
      (.Assignment "x" (.Binary (.Number 2) .ADD (.Number 3))) none)]
    (.BeginEnd
      [.Assignment "x" (.Binary (.Identifier "b") .ADD (.Identifier "c")),
       .Assignment "y" (.Binary (.Identifier "b") .ADD (.Identifier "c")),
       .If (.Compare (.Number 1) .LSS (.Number 2))
         (.Assignment "z" (.Binary (.Identifier "z") .MUL (.Number 1)))
         (some .Empty)])
    none⟩

/-- Witness for `c8_amended_idempotent_on_while_free`. -/
theorem c8_amended_idempotent_on_while_free_witness :
    optimize_ast (optimize_ast progC8W) = optimize_ast progC8W :=
  c8_amended_idempotent_on_while_free progC8W rfl

end PL0
